import Mathlib

/-!
Formal model of the queue-based rate limiter implemented in
`src/app/core/rate_limiter.py` (classes `RateLimiter` and `UserRateLimiter`).

Timestamps are modelled as rational numbers of seconds: an exact model of the
values returned by `time.time()` on which the code only performs addition,
subtraction and comparison.  The mutable `deque` of timestamps is a `List`
(front = oldest), and the `asyncio.Queue` of waiter futures is a FIFO `List`
of waiter identifiers.  Every mutation of the window performed by the code
happens inside `with self.lock:` blocks, so concurrent executions are
serialised and are modelled as sequences of atomic operations.
-/

namespace PromptInspector

/-- Timestamps: rational seconds, an exact model of the float values returned
by `time.time()` under the operations the code performs on them. -/
abbrev Timestamp : Type := ℚ

/-- State of one `RateLimiter` instance: the configuration fields stored by
`RateLimiter.__init__` together with the `request_timestamps` deque (oldest
first) and the `request_queue` of parked waiter futures (identified by
natural numbers, FIFO, front = next to be released). -/
structure RateLimiter where
  max_requests : ℕ
  time_window : ℚ
  max_queue_size : ℕ
  request_timestamps : List Timestamp
  request_queue : List ℕ
deriving DecidableEq

/-- Model of `RateLimiter.__init__`: a fresh limiter has an empty window and
an empty queue. -/
def RateLimiter.init (mr : ℕ) (tw : ℚ) (mqs : ℕ) : RateLimiter :=
  { max_requests := mr, time_window := tw, max_queue_size := mqs,
    request_timestamps := [], request_queue := [] }

/-- Pruning loop shared verbatim by `RateLimiter.limit` and
`RateLimiter._wait_for_token`:
`while self.request_timestamps and self.request_timestamps[0] < current_time - self.time_window: self.request_timestamps.popleft()`
pops entries from the front while the front entry is strictly older than
`now - time_window`, i.e. `dropWhile` on the list. -/
def prune (now tw : ℚ) (l : List Timestamp) : List Timestamp :=
  l.dropWhile (fun t => decide (t < now - tw))

/-- Locked window-update section shared by `RateLimiter.limit` (lines 55-63)
and `RateLimiter._wait_for_token` (lines 108-116): prune the window at the
current time, then admit (append the current time) exactly when the pruned
window is strictly below `max_requests`.  Returns the admission verdict and
the window contents after the operation. -/
def acquireSlot (mr : ℕ) (tw now : ℚ) (w : List Timestamp) : Bool × List Timestamp :=
  let pruned := prune now tw w
  if pruned.length < mr then (true, pruned ++ [now]) else (false, pruned)

/-- Possible fates of one call to `RateLimiter.limit`:
`allowed` = the fast path returned; `enqueued w` = the waiter future `w` was
placed in the queue and the caller suspended awaiting it; `blockedInPut w` =
the caller suspended inside `await self.request_queue.put(future)` because the
queue was at capacity; `rejected` = the `except asyncio.QueueFull` handler ran
and raised HTTPException 429. -/
inductive LimitOutcome where
  | allowed : LimitOutcome
  | enqueued : ℕ → LimitOutcome
  | blockedInPut : ℕ → LimitOutcome
  | rejected : LimitOutcome
deriving DecidableEq

/-- Fullness test of `asyncio.Queue(maxsize=m)`: the queue is full exactly
when `m > 0` and it holds at least `m` items; `maxsize = 0` (or negative)
means an infinite queue that is never full. -/
def queueFull (maxsize : ℕ) (q : List ℕ) : Bool :=
  decide (0 < maxsize) && decide (maxsize ≤ q.length)

/-- Model of `RateLimiter.limit` (lines 41-79): under the lock, prune and—on a
free slot—record the timestamp and return (fast path, outcome `allowed`).
Otherwise create a future and `await self.request_queue.put(future)`.
Awaiting `asyncio.Queue.put` on a full queue suspends the caller until a slot
frees (outcome `blockedInPut`); `asyncio.QueueFull` is raised only by
`put_nowait`, which the code does not use, so no branch produces the
`rejected` outcome of the `except asyncio.QueueFull` handler. -/
def RateLimiter.limit (s : RateLimiter) (now : ℚ) (wid : ℕ) :
    LimitOutcome × RateLimiter :=
  let ts := prune now s.time_window s.request_timestamps
  if ts.length < s.max_requests then
    (.allowed, { s with request_timestamps := ts ++ [now] })
  else if queueFull s.max_queue_size s.request_queue then
    (.blockedInPut wid, { s with request_timestamps := ts })
  else
    let s' := { s with request_timestamps := ts,
                       request_queue := s.request_queue ++ [wid] }
    (.enqueued wid, s')

/-- Outcome of one iteration of the `while True` loop in
`RateLimiter._wait_for_token`: either a token was acquired (the current time
was appended to the window and the function returns), or the iteration ends in
`asyncio.sleep d` and the loop retries.  Both record the window contents the
iteration leaves behind. -/
inductive WaitResult where
  | tokenAcquired : List Timestamp → WaitResult
  | sleepFor : ℚ → List Timestamp → WaitResult
deriving DecidableEq

/-- Window contents left behind by a `_wait_for_token` iteration. -/
def WaitResult.window : WaitResult → List Timestamp
  | .tokenAcquired w => w
  | .sleepFor _ w => w

/-- Model of one iteration of `RateLimiter._wait_for_token` (lines 101-125):
under the lock, prune and admit if strictly below the limit.  Otherwise read
`oldest_timestamp = self.request_timestamps[0]` (an IndexError, modelled as
`none`, if the pruned window is empty, which requires `max_requests = 0`) and
sleep `min(wait_time, 1.0)` when `wait_time = oldest + time_window - now` is
positive, else sleep `0.1`. -/
def RateLimiter.waitForTokenStep (s : RateLimiter) (now : ℚ) :
    Option WaitResult :=
  let ts := prune now s.time_window s.request_timestamps
  if ts.length < s.max_requests then some (.tokenAcquired (ts ++ [now]))
  else
    match ts.head? with
    | none => none
    | some oldest =>
      let wt := oldest + s.time_window - now
      if 0 < wt then some (.sleepFor (min wt 1) ts)
      else some (.sleepFor (1 / 10) ts)

/-- Interleaved sequence of window operations: each element is the arrival
time of one admission attempt — a fast-path attempt in `RateLimiter.limit`
or a releaser attempt in `RateLimiter._wait_for_token`; both run the same
locked section `acquireSlot`.  Returns the final window and the list of
(time, admitted?) outcomes in order. -/
def runAdmissions (mr : ℕ) (tw : ℚ) :
    List Timestamp → List ℚ → List Timestamp × List (ℚ × Bool)
  | w, [] => (w, [])
  | w, t :: ts =>
    let r := acquireSlot mr tw t w
    let rest := runAdmissions mr tw r.2 ts
    (rest.1, (t, r.1) :: rest.2)

/-- Times of the admitted (`Allowed`) outcomes of an admission run. -/
def allowedTimes (outs : List (ℚ × Bool)) : List ℚ :=
  (outs.filter (fun p => p.2)).map Prod.fst

/-- Membership of a timestamp in the trailing window of length `tw` ending at
`T`. -/
def inWin (tw T x : ℚ) : Bool :=
  decide (T - tw ≤ x) && decide (x ≤ T)

/-- Events on the pending queue of one limiter instance: a caller places its
waiter future in the queue (`RateLimiter.limit`, slow path), or the background
releaser `RateLimiter._process_queue` completes one loop iteration — it gets
the front waiter via `request_queue.get()`, awaits `_wait_for_token`, and
resolves that waiter with `future.set_result(None)`. -/
inductive QueueEvent where
  | enqueue : ℕ → QueueEvent
  | release : QueueEvent
deriving DecidableEq

/-- Pending waiters (FIFO, front = next to be released) together with the
already-resolved waiters in resolution order. -/
structure QueueState where
  pending : List ℕ
  resolved : List ℕ
deriving DecidableEq

/-- Effect of one queue event: `enqueue` appends at the back (`asyncio.Queue`
preserves arrival order, and putters blocked on a full queue are woken in FIFO
order); `release` pops the front waiter and appends it to the resolution
order, doing nothing on an empty queue (the releaser would be suspended inside
`request_queue.get()`).  The releaser is a single task, so releases happen one
at a time. -/
def queueStep (s : QueueState) (e : QueueEvent) : QueueState :=
  match e with
  | .enqueue w => { s with pending := s.pending ++ [w] }
  | .release =>
    match s.pending with
    | [] => s
    | h :: t => { pending := t, resolved := s.resolved ++ [h] }

/-- Run a sequence of queue events from the initial empty state of a freshly
constructed limiter. -/
def runQueue (es : List QueueEvent) : QueueState :=
  es.foldl queueStep { pending := [], resolved := [] }

/-- Waiter identifiers in enqueue order. -/
def enqueuedIds : List QueueEvent → List ℕ
  | [] => []
  | QueueEvent.enqueue w :: es => w :: enqueuedIds es
  | QueueEvent.release :: es => enqueuedIds es

/-- State of a `UserRateLimiter` registry: the fixed configuration passed to
`UserRateLimiter.__init__` and the `limiters` dict, modelled as an association
list from user id to limiter instance. -/
structure UserRateLimiter where
  max_requests : ℕ
  time_window : ℚ
  max_queue_size : ℕ
  limiters : List (String × RateLimiter)

/-- Model of `UserRateLimiter.get_limiter`: under the lock, if no limiter is
stored for `user_id`, construct one with the registry's fixed configuration
and store it; return the limiter stored for `user_id` together with the
registry after the call. -/
def UserRateLimiter.get_limiter (u : UserRateLimiter) (user_id : String) :
    RateLimiter × UserRateLimiter :=
  match u.limiters.lookup user_id with
  | some l => (l, u)
  | none =>
    let l := RateLimiter.init u.max_requests u.time_window u.max_queue_size
    (l, { u with limiters := (user_id, l) :: u.limiters })

/-- Replace the binding of key `k` (dict assignment `self.limiters[k] = v`). -/
def setLimiter : List (String × RateLimiter) → String → RateLimiter →
    List (String × RateLimiter)
  | [], k, v => [(k, v)]
  | (k0, v0) :: rest, k, v =>
    if k == k0 then (k, v) :: rest else (k0, v0) :: setLimiter rest k v

/-- Perform an operation on the limiter of key `k`: fetch (or lazily create)
the instance with `get_limiter`, mutate it with `f` (e.g. record admissions in
its window or queue), and store the mutated instance back.  Models the fact
that a Python caller mutates the shared `RateLimiter` object in place. -/
def UserRateLimiter.runOp (u : UserRateLimiter) (k : String)
    (f : RateLimiter → RateLimiter) : UserRateLimiter :=
  let r := u.get_limiter k
  { r.2 with limiters := setLimiter r.2.limiters k (f r.1) }

/-! ### Helper lemmas about pruning -/

/-- Dropping the stale prefix of a sorted window is the same as filtering out
every stale entry: sortedness means the stale entries form a prefix. -/
lemma dropWhile_lt_of_sorted (b : ℚ) :
    ∀ l : List ℚ, l.Sorted (· ≤ ·) →
      l.dropWhile (fun x => decide (x < b)) = l.filter (fun x => decide (b ≤ x))
  | [], _ => rfl
  | x :: xs, h => by
    rcases List.sorted_cons.mp h with ⟨hx, hxs⟩
    by_cases hxb : x < b
    · rw [List.dropWhile_cons_of_pos (by simpa using hxb),
        List.filter_cons_of_neg (by simpa using not_le.mpr hxb)]
      exact dropWhile_lt_of_sorted b xs hxs
    · push_neg at hxb
      rw [List.dropWhile_cons_of_neg (by simpa using not_lt.mpr hxb),
        List.filter_cons_of_pos (by simpa using hxb)]
      have : List.filter (fun x => decide (b ≤ x)) xs = xs :=
        List.filter_eq_self.mpr (fun a ha => by simpa using le_trans hxb (hx a ha))
      rw [this]

/-- Characterisation of `prune` on sorted windows. -/
lemma prune_eq_filter (now tw : ℚ) (l : List ℚ) (h : l.Sorted (· ≤ ·)) :
    prune now tw l = l.filter (fun x => decide (now - tw ≤ x)) :=
  dropWhile_lt_of_sorted _ l h

/-- Filtering by a larger lower bound subsumes filtering by a smaller one. -/
lemma filter_ge_filter_ge {b₁ b₂ : ℚ} (h : b₁ ≤ b₂) : ∀ l : List ℚ,
    (l.filter (fun x => decide (b₁ ≤ x))).filter (fun x => decide (b₂ ≤ x)) =
      l.filter (fun x => decide (b₂ ≤ x))
  | [] => rfl
  | x :: xs => by
    have ih := filter_ge_filter_ge h xs
    by_cases h1 : b₁ ≤ x
    · simp [List.filter_cons, h1, ih]
    · have h2 : ¬ b₂ ≤ x := fun hh => h1 (le_trans h hh)
      simp [List.filter_cons, h1, h2, ih]

/-- Generic idempotence of `dropWhile`: after one pass the head (if any) fails
the predicate, so a second pass removes nothing. -/
lemma dropWhile_dropWhile_self {α : Type} (p : α → Bool) :
    ∀ l : List α, (l.dropWhile p).dropWhile p = l.dropWhile p
  | [] => rfl
  | x :: xs => by
    cases hp : p x
    · rw [List.dropWhile_cons_of_neg (by simp [hp]),
        List.dropWhile_cons_of_neg (by simp [hp])]
    · rw [List.dropWhile_cons_of_pos hp]
      exact dropWhile_dropWhile_self p xs

/-! ### Claim theorems about pruning (C5, C6) -/

/-- C5: pruning at time `now` removes exactly the entries strictly older than
`now - time_window` and keeps the rest in their original order (on a sorted
window it is the filter keeping entries `≥ now - time_window`); both
`RateLimiter.limit` and `RateLimiter._wait_for_token` prune before their
capacity check, so no entry older than `now - time_window` survives a call:
stale entries never count toward the limit. -/
theorem prune_semantics :
    (∀ (now tw : ℚ) (l : List Timestamp), l.Sorted (· ≤ ·) →
      prune now tw l = l.filter (fun x => decide (now - tw ≤ x)) ∧
      ∀ x : ℚ, x ∈ prune now tw l ↔ x ∈ l ∧ now - tw ≤ x) ∧
    (∀ (s : RateLimiter) (now : ℚ) (wid : ℕ), 0 ≤ s.time_window →
      s.request_timestamps.Sorted (· ≤ ·) →
      ∀ x ∈ ((s.limit now wid).2).request_timestamps, now - s.time_window ≤ x) ∧
    (∀ (s : RateLimiter) (now : ℚ) (r : WaitResult), 0 ≤ s.time_window →
      s.request_timestamps.Sorted (· ≤ ·) →
      s.waitForTokenStep now = some r →
      ∀ x ∈ r.window, now - s.time_window ≤ x) := by
  have key : ∀ (now tw : ℚ) (l : List Timestamp), l.Sorted (· ≤ ·) →
      ∀ x ∈ prune now tw l, now - tw ≤ x := by
    intro now tw l hl x hx
    rw [prune_eq_filter now tw l hl] at hx
    simpa using (List.mem_filter.mp hx).2
  refine ⟨?_, ?_, ?_⟩
  · intro now tw l hl
    refine ⟨prune_eq_filter now tw l hl, ?_⟩
    intro x
    rw [prune_eq_filter now tw l hl]
    simp [List.mem_filter]
  · intro s now wid htw hl x hx
    unfold RateLimiter.limit at hx
    by_cases h1 : (prune now s.time_window s.request_timestamps).length < s.max_requests
    · simp only [h1, if_true] at hx
      rcases List.mem_append.mp hx with hx | hx
      · exact key now s.time_window _ hl x hx
      · simp at hx; subst hx; linarith
    · by_cases h2 : queueFull s.max_queue_size s.request_queue = true
      · simp only [h1, if_false, h2, if_true] at hx
        exact key now s.time_window _ hl x hx
      · simp only [h1, if_false, h2, if_true] at hx
        exact key now s.time_window _ hl x hx
  · intro s now r htw hl hr x hx
    unfold RateLimiter.waitForTokenStep at hr
    by_cases h1 : (prune now s.time_window s.request_timestamps).length < s.max_requests
    · simp only [h1, if_true, Option.some_inj] at hr
      subst hr
      rcases List.mem_append.mp hx with hx | hx
      · exact key now s.time_window _ hl x hx
      · simp at hx; subst hx; linarith
    · simp only [h1, if_false] at hr
      cases hh : (prune now s.time_window s.request_timestamps).head? with
      | none => rw [hh] at hr; exact absurd hr (by simp)
      | some oldest =>
        rw [hh] at hr
        by_cases hpos : 0 < oldest + s.time_window - now
        · simp only [hpos, if_true, Option.some_inj] at hr
          subst hr
          exact key now s.time_window _ hl x hx
        · simp only [hpos, if_false, Option.some_inj] at hr
          subst hr
          exact key now s.time_window _ hl x hx

/-- Witness for C5 at a concrete input: window `[1, 9]` pruned at time 10 with
window length 3 keeps exactly `[9]`, and a concrete `limit` call leaves no
stale entry behind. -/
theorem prune_semantics_witness :
    prune 10 3 [1, 9] = [9] ∧
    (∀ x ∈ (((⟨1, 3, 5, [1, 9], []⟩ : RateLimiter).limit 10 0).2).request_timestamps,
      (10 : ℚ) - 3 ≤ x) := by
  have h := prune_semantics
  have hsorted : ([1, 9] : List ℚ).Sorted (· ≤ ·) := by
    norm_num [List.sorted_cons]
  constructor
  · have h1 := (h.1 10 3 [1, 9] hsorted).1
    rw [h1]
    norm_num [List.filter_cons]
  · exact h.2.1 ⟨1, 3, 5, [1, 9], []⟩ 10 0 (by norm_num) hsorted

/-- C6: pruning is idempotent — applying the prune step twice in succession at
the same time yields exactly the same window contents as applying it once, for
every window contents (sorted or not). -/
theorem prune_idempotent : ∀ (now tw : ℚ) (l : List Timestamp),
    prune now tw (prune now tw l) = prune now tw l := by
  intro now tw l
  exact dropWhile_dropWhile_self _ l

/-! ### Claim theorems about the limiter step functions (C7, C8, C10, C2, C4) -/

/-- C7: releaser pacing — when an iteration of `_wait_for_token` fails to
admit (window still full after pruning, `oldest` being the front of the pruned
window) and `oldest + time_window - now` is positive, the iteration sleeps
exactly `min (oldest + time_window - now) 1`: the wait is paced by the expiry
of the oldest window entry with per-retry latency capped at one second. -/
theorem releaser_pacing (s : RateLimiter) (now oldest : ℚ)
    (hfull : ¬ (prune now s.time_window s.request_timestamps).length < s.max_requests)
    (hhead : (prune now s.time_window s.request_timestamps).head? = some oldest)
    (hpos : 0 < oldest + s.time_window - now) :
    s.waitForTokenStep now =
      some (.sleepFor (min (oldest + s.time_window - now) 1)
        (prune now s.time_window s.request_timestamps)) := by
  unfold RateLimiter.waitForTokenStep
  simp only [hfull, if_false, hhead, hpos, if_true]

/-- Witness for C7: a limiter with `max_requests = 1`, `time_window = 60` and
window `[0]`, polled at time 30, sleeps `min (0 + 60 - 30) 1 = 1`. -/
theorem releaser_pacing_witness :
    (⟨1, 60, 5, [0], []⟩ : RateLimiter).waitForTokenStep 30 =
      some (.sleepFor 1 [0]) := by
  have hp : prune 30 60 [(0 : ℚ)] = [0] := by
    norm_num [prune, List.dropWhile_cons]
  have h := releaser_pacing ⟨1, 60, 5, [0], []⟩ 30 0
    (by simp only [hp]; norm_num)
    (by simp only [hp]; rfl)
    (by norm_num)
  rw [h, hp]
  norm_num [min_def]

/-- C8: fast-path frame property — whenever a `limit` call finds a free slot
after pruning, it returns `allowed` immediately, appends the current timestamp
to the pruned window, and leaves the pending queue untouched. -/
theorem fast_path_frame (s : RateLimiter) (now : ℚ) (wid : ℕ)
    (h : (prune now s.time_window s.request_timestamps).length < s.max_requests) :
    (s.limit now wid).1 = .allowed ∧
    ((s.limit now wid).2).request_queue = s.request_queue ∧
    ((s.limit now wid).2).request_timestamps =
      prune now s.time_window s.request_timestamps ++ [now] := by
  unfold RateLimiter.limit
  simp [h]

/-- Witness for C8: a fresh limiter with capacity 2 admits at time 0 without
touching its (empty) queue. -/
theorem fast_path_frame_witness :
    ((RateLimiter.init 2 60 1).limit 0 7).1 = .allowed ∧
    (((RateLimiter.init 2 60 1).limit 0 7).2).request_queue = [] ∧
    (((RateLimiter.init 2 60 1).limit 0 7).2).request_timestamps = [0] := by
  have h := fast_path_frame (RateLimiter.init 2 60 1) 0 7
    (by norm_num [RateLimiter.init, prune])
  refine ⟨h.1, h.2.1, ?_⟩
  rw [h.2.2]
  norm_num [RateLimiter.init, prune]

/-- C10: the rejection branch of `RateLimiter.limit` is unreachable — for
every limiter state and every call, the outcome is never `rejected` (the
`except asyncio.QueueFull` handler raising HTTPException 429 is dead code,
because `await asyncio.Queue.put` suspends on a full queue instead of raising
`QueueFull`): every call either returns `allowed` or suspends (in the queue or
inside `put`). -/
theorem rejection_branch_unreachable : ∀ (s : RateLimiter) (now : ℚ) (wid : ℕ),
    (s.limit now wid).1 ≠ .rejected ∧
    ((s.limit now wid).1 = .allowed ∨ (s.limit now wid).1 = .blockedInPut wid ∨
      (s.limit now wid).1 = .enqueued wid) := by
  intro s now wid
  unfold RateLimiter.limit
  by_cases h1 : (prune now s.time_window s.request_timestamps).length < s.max_requests
  · simp [h1]
  · by_cases h2 : queueFull s.max_queue_size s.request_queue = true
    · simp [h1, h2]
    · simp [h1, h2]

/-- C2 (code bug): with `max_requests = 1`, `time_window = 60`,
`max_queue_size = 1`, a full window `[0]` and a queue already holding one
waiter, a `limit` call at time 0 suspends inside `await request_queue.put`
(outcome `blockedInPut`) — it is not rejected with HTTP 429, contradicting the
code's own docstring (`Raises: HTTPException`). -/
theorem full_queue_blocks_instead_of_rejecting :
    ((⟨1, 60, 1, [0], [0]⟩ : RateLimiter).limit 0 1).1 = .blockedInPut 1 ∧
    ((⟨1, 60, 1, [0], [0]⟩ : RateLimiter).limit 0 1).1 ≠ .rejected := by
  norm_num [RateLimiter.limit, prune, queueFull, List.dropWhile_cons]
  decide

/-- C4 (code bug): with `max_requests = 1`, `time_window = 1`,
`max_queue_size = 0` and no prior history, the first call at t = 0 is allowed,
but the second call at t = 0 is parked in the queue (outcome `enqueued`)
rather than rejected: `asyncio.Queue(maxsize=0)` is an unbounded queue, so the
zero-capacity configuration never rejects. -/
theorem zero_capacity_queue_parks :
    (((RateLimiter.init 1 1 0).limit 0 0).1 = .allowed) ∧
    ((((RateLimiter.init 1 1 0).limit 0 0).2).limit 0 1).1 = .enqueued 1 ∧
    ((((RateLimiter.init 1 1 0).limit 0 0).2).limit 0 1).1 ≠ .rejected := by
  norm_num [RateLimiter.limit, RateLimiter.init, prune, queueFull,
    List.dropWhile_cons]
  decide

/-! ### The pending queue and the background releaser (C3) -/

/-- Invariant of the queue/releaser system: at every point, the waiters
resolved so far followed by the waiters still pending are exactly the waiters
enqueued so far, in enqueue order. -/
lemma foldl_queueStep_append : ∀ (es : List QueueEvent) (s : QueueState),
    (es.foldl queueStep s).resolved ++ (es.foldl queueStep s).pending =
      s.resolved ++ (s.pending ++ enqueuedIds es)
  | [], s => by simp [enqueuedIds]
  | QueueEvent.enqueue w :: es, s => by
    rw [List.foldl_cons]
    rw [foldl_queueStep_append es (queueStep s (.enqueue w))]
    simp [queueStep, enqueuedIds]
  | QueueEvent.release :: es, s => by
    rw [List.foldl_cons]
    rw [foldl_queueStep_append es (queueStep s .release)]
    cases hp : s.pending with
    | nil => simp [queueStep, hp, enqueuedIds]
    | cons h t => simp [queueStep, hp, enqueuedIds]

/-- C3: FIFO release order — for every sequence of queue events (callers
enqueueing waiters, the single releaser resolving the front waiter one at a
time), the resolved waiters followed by the pending waiters equal the enqueue
order, and in particular the j-th waiter to be resolved is exactly the j-th
waiter that was enqueued: waiters are released strictly in enqueue order, so a
waiter enqueued strictly before another is resolved no later than it. -/
theorem fifo_release_order : ∀ es : List QueueEvent,
    (runQueue es).resolved ++ (runQueue es).pending = enqueuedIds es ∧
    ∀ j : ℕ, j < (runQueue es).resolved.length →
      (enqueuedIds es)[j]? = (runQueue es).resolved[j]? := by
  intro es
  have h : (runQueue es).resolved ++ (runQueue es).pending = enqueuedIds es := by
    have h0 := foldl_queueStep_append es ⟨[], []⟩
    simpa [runQueue] using h0
  constructor
  · exact h
  · intro j hj
    rw [← h, List.getElem?_append, if_pos hj]

/-- Witness for C3: two waiters enqueued then one release — the first resolved
waiter is the first enqueued one. -/
theorem fifo_release_order_witness :
    (runQueue [.enqueue 5, .enqueue 7, .release]).resolved ++
        (runQueue [.enqueue 5, .enqueue 7, .release]).pending =
      enqueuedIds [.enqueue 5, .enqueue 7, .release] ∧
    (enqueuedIds [.enqueue 5, .enqueue 7, .release])[0]? =
      (runQueue [.enqueue 5, .enqueue 7, .release]).resolved[0]? := by
  have h := fifo_release_order [.enqueue 5, .enqueue 7, .release]
  exact ⟨h.1, h.2 0 (by decide)⟩

/-! ### The per-key registry (C9) -/

/-- Replacing the binding of key `k` leaves lookups of every other key
unchanged. -/
lemma lookup_setLimiter_ne (k k' : String) (v : RateLimiter) (hne : k' ≠ k) :
    ∀ l : List (String × RateLimiter),
      (setLimiter l k v).lookup k' = l.lookup k'
  | [] => by
    simp [setLimiter, List.lookup, beq_eq_false_iff_ne.mpr hne]
  | (k0, v0) :: rest => by
    by_cases hk : (k == k0) = true
    · have hkeq : k = k0 := eq_of_beq hk
      subst hkeq
      rw [show setLimiter ((k, v0) :: rest) k v = (k, v) :: rest by
        simp [setLimiter]]
      rw [List.lookup_cons, List.lookup_cons, beq_eq_false_iff_ne.mpr hne]
    · rw [show setLimiter ((k0, v0) :: rest) k v =
        (k0, v0) :: setLimiter rest k v by simp [setLimiter, hk]]
      rw [List.lookup_cons, List.lookup_cons]
      cases hkp : (k' == k0) with
      | true => rfl
      | false => exact lookup_setLimiter_ne k k' v hne rest

/-- Unfolding of `get_limiter` when the key is already present. -/
lemma get_limiter_some (u : UserRateLimiter) (k : String) (l : RateLimiter)
    (h : u.limiters.lookup k = some l) : u.get_limiter k = (l, u) := by
  unfold UserRateLimiter.get_limiter
  rw [h]

/-- Unfolding of `get_limiter` when the key is absent: a limiter with the
registry's fixed configuration is constructed and stored. -/
lemma get_limiter_none (u : UserRateLimiter) (k : String)
    (h : u.limiters.lookup k = none) :
    u.get_limiter k =
      (RateLimiter.init u.max_requests u.time_window u.max_queue_size,
       { u with limiters :=
          (k, RateLimiter.init u.max_requests u.time_window u.max_queue_size)
            :: u.limiters }) := by
  unfold UserRateLimiter.get_limiter
  rw [h]

/-- C9: per-key registry correctness — `get_limiter` returns the stored
instance when one exists (leaving the registry unchanged), otherwise
constructs exactly one instance with the registry's fixed configuration and
stores it under the key; hence two calls with the same key return the same
instance, and an operation performed on one key's limiter leaves every other
key's stored limiter (its window and queue) unchanged. -/
theorem per_key_registry_correct :
    (∀ (u : UserRateLimiter) (k : String) (l : RateLimiter),
      u.limiters.lookup k = some l → u.get_limiter k = (l, u)) ∧
    (∀ (u : UserRateLimiter) (k : String),
      u.limiters.lookup k = none →
      (u.get_limiter k).1 =
        RateLimiter.init u.max_requests u.time_window u.max_queue_size ∧
      ((u.get_limiter k).2).limiters.lookup k =
        some (RateLimiter.init u.max_requests u.time_window u.max_queue_size)) ∧
    (∀ (u : UserRateLimiter) (k : String),
      ((u.get_limiter k).2.get_limiter k).1 = (u.get_limiter k).1 ∧
      ((u.get_limiter k).2.get_limiter k).2 = (u.get_limiter k).2) ∧
    (∀ (u : UserRateLimiter) (k k' : String) (f : RateLimiter → RateLimiter),
      k' ≠ k → ((u.runOp k f).limiters.lookup k') = u.limiters.lookup k') := by
  refine ⟨?_, ?_, ?_, ?_⟩
  · exact get_limiter_some
  · intro u k h
    rw [get_limiter_none u k h]
    exact ⟨rfl, by simp [List.lookup_cons]⟩
  · intro u k
    cases h : u.limiters.lookup k with
    | some l =>
      have h1 := get_limiter_some u k l h
      simp [h1]
    | none =>
      have h1 := get_limiter_none u k h
      have h2 : ({ u with limiters :=
          (k, RateLimiter.init u.max_requests u.time_window u.max_queue_size)
            :: u.limiters } : UserRateLimiter).limiters.lookup k =
          some (RateLimiter.init u.max_requests u.time_window u.max_queue_size) := by
        simp [List.lookup_cons]
      have h3 := get_limiter_some _ k _ h2
      simp [h1, h3]
  · intro u k k' f hne
    cases h : u.limiters.lookup k with
    | some l =>
      have h1 := get_limiter_some u k l h
      simp only [UserRateLimiter.runOp, h1]
      exact lookup_setLimiter_ne k k' _ hne u.limiters
    | none =>
      have h1 := get_limiter_none u k h
      simp only [UserRateLimiter.runOp, h1]
      rw [show setLimiter
          ((k, RateLimiter.init u.max_requests u.time_window u.max_queue_size)
            :: u.limiters) k
          (f (RateLimiter.init u.max_requests u.time_window u.max_queue_size)) =
          (k, f (RateLimiter.init u.max_requests u.time_window u.max_queue_size))
            :: u.limiters by simp [setLimiter]]
      rw [List.lookup_cons, beq_eq_false_iff_ne.mpr hne]

/-- Identity key used by the registry witness. -/
def keyA : String := "a"

/-- Second, distinct identity key used by the registry witness. -/
def keyB : String := "b"

/-- Witness for C9: on an empty registry with configuration `{2, 60, 3}`, the
first `get_limiter` call for a key returns a fresh limiter with that
configuration, a repeated call returns the same instance, and an operation on
one key's limiter leaves the other key's binding unchanged. -/
theorem per_key_registry_correct_witness :
    ((UserRateLimiter.mk 2 60 3 []).get_limiter keyA).1 = RateLimiter.init 2 60 3 ∧
    (((UserRateLimiter.mk 2 60 3 []).get_limiter keyA).2.get_limiter keyA).1 =
      ((UserRateLimiter.mk 2 60 3 []).get_limiter keyA).1 ∧
    ((UserRateLimiter.mk 2 60 3 []).runOp keyA id).limiters.lookup keyB =
      (UserRateLimiter.mk 2 60 3 []).limiters.lookup keyB := by
  have h := per_key_registry_correct
  refine ⟨?_, (h.2.2.1 (UserRateLimiter.mk 2 60 3 []) keyA).1, ?_⟩
  · exact (h.2.1 (UserRateLimiter.mk 2 60 3 []) keyA rfl).1
  · exact h.2.2.2 (UserRateLimiter.mk 2 60 3 []) keyA keyB id (by decide)

/-! ### The sliding-window admission bound (C1) -/

/-- The window left behind by any `limit` call is exactly the window produced
by the shared locked section `acquireSlot`, whatever branch is taken. -/
lemma limit_window_eq_acquireSlot (s : RateLimiter) (now : ℚ) (wid : ℕ) :
    ((s.limit now wid).2).request_timestamps =
      (acquireSlot s.max_requests s.time_window now s.request_timestamps).2 := by
  unfold RateLimiter.limit acquireSlot
  by_cases h1 : (prune now s.time_window s.request_timestamps).length < s.max_requests
  · simp [h1]
  · by_cases h2 : queueFull s.max_queue_size s.request_queue = true
    · simp [h1, h2]
    · simp [h1, h2]

/-- The window left behind by any `_wait_for_token` iteration is exactly the
window produced by the shared locked section `acquireSlot`. -/
lemma waitForTokenStep_window_eq_acquireSlot (s : RateLimiter) (now : ℚ)
    (r : WaitResult) (hr : s.waitForTokenStep now = some r) :
    r.window =
      (acquireSlot s.max_requests s.time_window now s.request_timestamps).2 := by
  unfold RateLimiter.waitForTokenStep at hr
  unfold acquireSlot
  by_cases h1 : (prune now s.time_window s.request_timestamps).length < s.max_requests
  · simp only [h1, if_true, Option.some_inj] at hr
    subst hr
    simp [h1, WaitResult.window]
  · simp only [h1, if_false] at hr
    cases hh : (prune now s.time_window s.request_timestamps).head? with
    | none => rw [hh] at hr; exact absurd hr (by simp)
    | some oldest =>
      rw [hh] at hr
      by_cases hpos : 0 < oldest + s.time_window - now
      · simp only [hpos, if_true, Option.some_inj] at hr
        subst hr
        simp [h1, WaitResult.window]
      · simp only [hpos, if_false, Option.some_inj] at hr
        subst hr
        simp [h1, WaitResult.window]

/-- Unfolding of `allowedTimes` over an admitted outcome. -/
lemma allowedTimes_cons_true (t : ℚ) (outs : List (ℚ × Bool)) :
    allowedTimes ((t, true) :: outs) = t :: allowedTimes outs := by
  simp [allowedTimes]

/-- Unfolding of `allowedTimes` over a refused outcome. -/
lemma allowedTimes_cons_false (t : ℚ) (outs : List (ℚ × Bool)) :
    allowedTimes ((t, false) :: outs) = allowedTimes outs := by
  simp [allowedTimes]

/-- Main induction for C1: `adm` is the sorted history of already-admitted
times (all at most `t0`), the current window is `adm` restricted to entries at
least `t0 - tw`, the admitted history satisfies the trailing-window count
bound, and the remaining operation times `ts` are sorted and at least `t0`.
Then the final window length is bounded by `mr` and the count bound extends to
the admitted times of the whole run. -/
lemma runAdmissions_invariant (mr : ℕ) (tw : ℚ) (htw : 0 ≤ tw) :
    ∀ ts : List ℚ, ts.Sorted (· ≤ ·) →
    ∀ (adm : List ℚ) (t0 : ℚ), (∀ t ∈ ts, t0 ≤ t) →
      adm.Sorted (· ≤ ·) → (∀ x ∈ adm, x ≤ t0) →
      (∀ T : ℚ, adm.countP (inWin tw T) ≤ mr) →
      (runAdmissions mr tw (adm.filter (fun x => decide (t0 - tw ≤ x))) ts).1.length ≤ mr ∧
      ∀ T : ℚ,
        (adm ++ allowedTimes
            (runAdmissions mr tw (adm.filter (fun x => decide (t0 - tw ≤ x))) ts).2).countP
          (inWin tw T) ≤ mr := by
  intro ts
  induction ts with
  | nil =>
    intro _ adm t0 _ hadm_s hadm_le hcount
    constructor
    · have h1 : adm.countP (fun x => decide (t0 - tw ≤ x)) ≤
          adm.countP (inWin tw t0) := by
        apply List.countP_mono_left
        intro x hx hpx
        have hx1 : t0 - tw ≤ x := of_decide_eq_true hpx
        have hx2 : x ≤ t0 := hadm_le x hx
        simp [inWin, hx1, hx2]
      have h3 : (adm.filter (fun x => decide (t0 - tw ≤ x))).length =
          adm.countP (fun x => decide (t0 - tw ≤ x)) :=
        (List.countP_eq_length_filter _ _).symm
      show (adm.filter (fun x => decide (t0 - tw ≤ x))).length ≤ mr
      rw [h3]
      exact le_trans h1 (hcount t0)
    · intro T
      simpa [runAdmissions, allowedTimes] using hcount T
  | cons t ts ih =>
    intro hts_s adm t0 hts_ge hadm_s hadm_le hcount
    have ht0t : t0 ≤ t := hts_ge t (List.mem_cons_self t ts)
    rcases List.sorted_cons.mp hts_s with ⟨ht_ts, hts_s2⟩
    have hw_sorted : (adm.filter (fun x => decide (t0 - tw ≤ x))).Sorted (· ≤ ·) :=
      List.Pairwise.filter _ hadm_s
    have hprune : prune t tw (adm.filter (fun x => decide (t0 - tw ≤ x))) =
        adm.filter (fun x => decide (t - tw ≤ x)) := by
      rw [prune_eq_filter _ _ _ hw_sorted]
      exact filter_ge_filter_ge (by linarith) adm
    by_cases hlen : (adm.filter (fun x => decide (t - tw ≤ x))).length < mr
    · -- the operation at time t is admitted
      have happ : adm.filter (fun x => decide (t - tw ≤ x)) ++ [t] =
          (adm ++ [t]).filter (fun x => decide (t - tw ≤ x)) := by
        rw [List.filter_append]
        have hsing : List.filter (fun x => decide (t - tw ≤ x)) [t] = [t] := by
          simp
          linarith
        rw [hsing]
      have hadm_s2 : (adm ++ [t]).Sorted (· ≤ ·) := by
        rw [List.Sorted, List.pairwise_append]
        refine ⟨hadm_s, by simp, ?_⟩
        intro x hx y hy
        simp only [List.mem_singleton] at hy
        subst hy
        exact le_trans (hadm_le x hx) ht0t
      have hadm_le2 : ∀ x ∈ adm ++ [t], x ≤ t := by
        intro x hx
        rcases List.mem_append.mp hx with hx | hx
        · exact le_trans (hadm_le x hx) ht0t
        · simp only [List.mem_singleton] at hx
          exact hx.le
      have hcount2 : ∀ T : ℚ, (adm ++ [t]).countP (inWin tw T) ≤ mr := by
        intro T
        rw [List.countP_append]
        by_cases hwt : inWin tw T t = true
        · have hTt : T - tw ≤ t ∧ t ≤ T := by simpa [inWin] using hwt
          have hmono : adm.countP (inWin tw T) ≤
              adm.countP (fun x => decide (t - tw ≤ x)) := by
            apply List.countP_mono_left
            intro x hx hpx
            have hx1 : T - tw ≤ x ∧ x ≤ T := by simpa [inWin] using hpx
            have hx2 : t - tw ≤ x := by linarith [hTt.2, hx1.1]
            simpa using hx2
          have hlen2 : adm.countP (fun x => decide (t - tw ≤ x)) =
              (adm.filter (fun x => decide (t - tw ≤ x))).length :=
            List.countP_eq_length_filter _ _
          have hone : ([t] : List ℚ).countP (inWin tw T) ≤ 1 := by
            rw [List.countP_cons]
            simp only [List.countP_nil]
            split <;> omega
          omega
        · have hzero : ([t] : List ℚ).countP (inWin tw T) = 0 := by
            simp [List.countP_cons, hwt]
          rw [hzero]
          simpa using hcount T
      have hmain := ih hts_s2 (adm ++ [t]) t ht_ts hadm_s2 hadm_le2 hcount2
      simp only [runAdmissions, acquireSlot, hprune, hlen, if_true]
      rw [happ]
      refine ⟨hmain.1, ?_⟩
      intro T
      rw [allowedTimes_cons_true]
      have hfin := hmain.2 T
      rwa [List.append_assoc, List.singleton_append] at hfin
    · -- the operation at time t is refused
      have hadm_le2 : ∀ x ∈ adm, x ≤ t := fun x hx => le_trans (hadm_le x hx) ht0t
      have hmain := ih hts_s2 adm t ht_ts hadm_s hadm_le2 hcount
      simp only [runAdmissions, acquireSlot, hprune, hlen, if_false]
      refine ⟨hmain.1, ?_⟩
      intro T
      rw [allowedTimes_cons_false]
      exact hmain.2 T

/-- C1: sliding-window admission bound — the window mutation of every
admission operation (fast-path `limit` call or releaser `_wait_for_token`
iteration) is the shared locked section `acquireSlot`, and for every sorted
sequence of admission-operation times on a fresh limiter, the final window
holds at most `max_requests` timestamps (hence so does the window after every
operation, every prefix being such a sequence), and the number of Allowed
outcomes whose timestamps lie within any trailing interval of length
`time_window` never exceeds `max_requests`. -/
theorem sliding_window_admission_bound :
    (∀ (s : RateLimiter) (now : ℚ) (wid : ℕ),
      ((s.limit now wid).2).request_timestamps =
        (acquireSlot s.max_requests s.time_window now s.request_timestamps).2) ∧
    (∀ (s : RateLimiter) (now : ℚ) (r : WaitResult),
      s.waitForTokenStep now = some r →
      r.window =
        (acquireSlot s.max_requests s.time_window now s.request_timestamps).2) ∧
    (∀ (mr : ℕ) (tw : ℚ), 0 ≤ tw → ∀ ts : List ℚ, ts.Sorted (· ≤ ·) →
      (runAdmissions mr tw [] ts).1.length ≤ mr ∧
      ∀ T : ℚ,
        (allowedTimes (runAdmissions mr tw [] ts).2).countP (inWin tw T) ≤ mr) := by
  refine ⟨limit_window_eq_acquireSlot, waitForTokenStep_window_eq_acquireSlot, ?_⟩
  intro mr tw htw ts hts
  cases ts with
  | nil =>
    constructor
    · simp [runAdmissions]
    · intro T
      simp [runAdmissions, allowedTimes]
  | cons t ts2 =>
    have hge : ∀ u ∈ t :: ts2, t ≤ u := by
      intro u hu
      rcases List.mem_cons.mp hu with hu | hu
      · exact hu.ge
      · exact (List.sorted_cons.mp hts).1 u hu
    have h := runAdmissions_invariant mr tw htw (t :: ts2) hts [] t hge
      List.sorted_nil (by simp) (by simp [List.countP_nil])
    constructor
    · simpa using h.1
    · intro T
      simpa using h.2 T

/-- Witness for C1: on a fresh limiter with `max_requests = 2`,
`time_window = 60`, three admission attempts at time 0 leave a window of at
most 2 entries and at most 2 allowed outcomes in the trailing minute ending at
time 60; and a concrete `_wait_for_token` iteration's window agrees with
`acquireSlot`. -/
theorem sliding_window_admission_bound_witness :
    (runAdmissions 2 (60 : ℚ) [] [0, 0, 0]).1.length ≤ 2 ∧
    (allowedTimes (runAdmissions 2 (60 : ℚ) [] [0, 0, 0]).2).countP (inWin 60 60) ≤ 2 ∧
    (WaitResult.tokenAcquired [(0 : ℚ)]).window =
      (acquireSlot 2 60 0 ([] : List ℚ)).2 := by
  have h := sliding_window_admission_bound
  have h3 := h.2.2 2 60 (by norm_num) [0, 0, 0] (by norm_num [List.sorted_cons])
  refine ⟨h3.1, h3.2 60, ?_⟩
  exact h.2.1 ⟨2, 60, 1, [], []⟩ 0 (.tokenAcquired [0])
    (by norm_num [RateLimiter.waitForTokenStep, prune])

/-- Witness for C10: a concrete call on a fresh limiter does not produce the
rejected outcome. -/
theorem rejection_branch_unreachable_witness :
    (((RateLimiter.init 1 60 1).limit 0 0).1 ≠ LimitOutcome.rejected) :=
  (rejection_branch_unreachable (RateLimiter.init 1 60 1) 0 0).1

end PromptInspector
